import Mathlib

/-!
Verification development for the SUN360 half-half bilinear CNN program
(`BCNN.py`).  The program builds a bilinear AlexNet embedding network
(`BilinearAlex`), a training and evaluation manager
(`BilinearAlexManager`), and a triplet dataset indexer
(`sun360h_data_load`).  The definitions below are a shallow embedding of
that code: tensors are modelled by their shapes where only shapes matter,
by functions `Fin d → ℚ` where values matter, parameters by
(name, requires_grad) pairs, and the two random sources
(`np.random.permutation`, `np.random.randint(9)`) by explicit arguments
whose characteristic properties (being a permutation, landing in `Fin 9`)
are exactly the guarantees of those numpy calls.
-/

/-! ## Shape model of the network forward pass

`BilinearAlex.forward` checks `assert X.size() == (N, 3, 227, 227)`,
runs the AlexNet feature extractor, reshapes, runs the `bfc` head,
forms the bilinear (outer-product) pooling via
`torch.matmul(torch.transpose(X, 1, 2), X)`, flattens, and applies the
final `fc` layer, with shape assertions after each stage.  Each guard
below models one assertion or one reshape/layer applicability condition;
a `none` result means some assertion or tensor operation failed. -/

/-- Output spatial size of `Conv2d` with kernel `k`, stride `s`, padding `p`. -/
def convOut (n k s p : Nat) : Nat := (n + 2 * p - k) / s + 1

/-- Output spatial size of `MaxPool2d` with kernel `k` and stride `s`. -/
def poolOut (n k s : Nat) : Nat := (n - k) / s + 1

/-- Shape of `models.alexnet(pretrained=True).features` applied to one
image of shape (c, h, w): five convolutions and three max-pools, ending
with 256 channels. -/
def alexFeaturesShape (c h w : Nat) : Option (Nat × Nat × Nat) :=
  if c = 3 then
    let h1 := convOut h 11 4 2
    let w1 := convOut w 11 4 2
    let h2 := poolOut h1 3 2
    let w2 := poolOut w1 3 2
    let h3 := convOut h2 5 1 2
    let w3 := convOut w2 5 1 2
    let h4 := poolOut h3 3 2
    let w4 := poolOut w3 3 2
    let h5 := convOut h4 3 1 1
    let w5 := convOut w4 3 1 1
    let h6 := convOut h5 3 1 1
    let w6 := convOut w5 3 1 1
    let h7 := convOut h6 3 1 1
    let w7 := convOut w6 3 1 1
    some (256, poolOut h7 3 2, poolOut w7 3 2)
  else none

/-- A `torch.nn.Linear(inF, outF)` layer accepts feature dimension `inF`. -/
def linearShape (inF outF d : Nat) : Option Nat :=
  if d = inF then some outF else none

/-- Feature dimension through `self.bfc`: the AlexNet classifier with its
final layer replaced, i.e. Linear(9216, 4096), Linear(4096, 4096),
Linear(4096, 512) (dropout and ReLU layers preserve the shape). -/
def bfcShape (d : Nat) : Option Nat :=
  (linearShape 9216 4096 d).bind fun d1 =>
  (linearShape 4096 4096 d1).bind fun d2 =>
  linearShape 4096 512 d2

/-- `X.view(n, -1, last)` on `total` elements: the inferred middle
dimension is `total / (n * last)`, defined only when `n * last` is
nonzero and divides `total`. -/
def viewInfer3 (total n last : Nat) : Option (Nat × Nat × Nat) :=
  if n * last ≠ 0 ∧ n * last ∣ total then some (n, total / (n * last), last) else none

/-- Shape of `torch.transpose(X, 1, 2)` on a batched matrix. -/
def transposeShape12 (s : Nat × Nat × Nat) : Nat × Nat × Nat :=
  (s.1, s.2.2, s.2.1)

/-- Shape of batched `torch.matmul`: batch dimensions must agree and the
inner dimensions must match. -/
def matmulShape (s t : Nat × Nat × Nat) : Option (Nat × Nat × Nat) :=
  if s.1 = t.1 ∧ s.2.2 = t.2.1 then some (s.1, s.2.1, t.2.2) else none

/-- Shape behaviour of `BilinearAlex.forward` on an input tensor of shape
(n, c, h, w); `n` plays the role of `N = X.size()[0]`.  Returns `none`
exactly when one of the four `assert` statements or one of the tensor
reshapes/layer applications fails. -/
def forwardShape (n c h w : Nat) : Option (Nat × Nat) :=
  (if (c, h, w) = (3, 227, 227) then some () else none).bind fun _ =>
  (alexFeaturesShape c h w).bind fun fm =>
  (if fm.1 * fm.2.1 * fm.2.2 = 256 * 6 * 6 then some () else none).bind fun _ =>
  (bfcShape (256 * 6 * 6)).bind fun d =>
  (if d = 512 then some () else none).bind fun _ =>
  (viewInfer3 (n * d) n 512).bind fun s3 =>
  (matmulShape (transposeShape12 s3) s3).bind fun s4 =>
  (if s4 = (n, 512, 512) then some () else none).bind fun _ =>
  (if s4.1 * s4.2.1 * s4.2.2 = n * 512 ^ 2 then some () else none).bind fun _ =>
  (linearShape (512 ^ 2) 512 (512 ^ 2)).bind fun dOut =>
  if dOut = 512 then some (n, dOut) else none

/-! ## Parameters and freeze modes

Parameters are modelled as (name, requires_grad) pairs.  The AlexNet
feature extractor has five convolution layers (indices 0, 3, 6, 8, 10),
each with a weight and a bias; `self.bfc` is the AlexNet classifier's
children without its last layer, plus a new Linear(4096, 512): layers
Dropout, Linear, ReLU, Dropout, Linear, ReLU, Linear, of which only the
Linear layers carry parameters; `self.fc` is Linear(512 ** 2, 512).
`requires_grad` defaults to `true` for every parameter. -/

/-- Set `requires_grad = False` on every parameter of a module. -/
def frz (l : List (String × Bool)) : List (String × Bool) :=
  l.map fun p => (p.1, false)

/-- The embedding network: `requires_grad` flags of the feature
extractor, of each layer of the bilinear sub-head, and of the final
projection. -/
structure BilinearAlex where
  features : List (String × Bool)
  bfc : List (List (String × Bool))
  fc : List (String × Bool)
deriving DecidableEq, Repr

/-- The freshly constructed network before any freezing: all
`requires_grad` flags are `true`. -/
def initNet : BilinearAlex where
  features :=
    [("features.0.weight", true), ("features.0.bias", true),
     ("features.3.weight", true), ("features.3.bias", true),
     ("features.6.weight", true), ("features.6.bias", true),
     ("features.8.weight", true), ("features.8.bias", true),
     ("features.10.weight", true), ("features.10.bias", true)]
  bfc :=
    [[],
     [("bfc.1.weight", true), ("bfc.1.bias", true)],
     [],
     [],
     [("bfc.4.weight", true), ("bfc.4.bias", true)],
     [],
     [("bfc.6.weight", true), ("bfc.6.bias", true)]]
  fc := [("fc.weight", true), ("fc.bias", true)]

/-- `BilinearAlex._freeze`: mode `part` freezes the feature extractor and
every `bfc` layer except the last (`self.bfc[:-1]`); mode `all` freezes
everything; any other mode raises `ValueError`. -/
def BilinearAlex.applyFreeze (net : BilinearAlex) (opt : String) :
    Except String BilinearAlex :=
  if opt = "part" then
    .ok { net with
          features := frz net.features,
          bfc := net.bfc.dropLast.map frz ++ net.bfc.drop (net.bfc.length - 1) }
  else if opt = "all" then
    .ok { features := frz net.features, bfc := net.bfc.map frz, fc := frz net.fc }
  else
    .error "Unavailable freeze option."

/-- `BilinearAlex.__init__(freeze)`: builds the network and applies
`_freeze(freeze)` only when `freeze` is truthy (`if freeze:`), i.e.
neither `None` nor the empty string. -/
def BilinearAlex.init (freeze : Option String) : Except String BilinearAlex :=
  match freeze with
  | none => .ok initNet
  | some s => if s = "" then .ok initNet else initNet.applyFreeze s

/-- `net.parameters()`: all parameters in module registration order. -/
def BilinearAlex.parameters (net : BilinearAlex) : List (String × Bool) :=
  net.features ++ net.bfc.flatten ++ net.fc

/-- `filter(lambda p: p.requires_grad, net.parameters())`: the parameters
handed to the optimizer. -/
def trainableParams (net : BilinearAlex) : List (String × Bool) :=
  net.parameters.filter fun p => p.2

/-- The valid freeze modes of the specification: `none` (Python `None`),
`part`, `all`. -/
def validFreeze (f : Option String) : Prop :=
  f = none ∨ f = some "part" ∨ f = some "all"

/-! ## The training and evaluation manager -/

/-- `BilinearAlexManager`: holds the network, the triplet margin, batch
size, epoch count, and — only when `freeze != 'all'` — the SGD solver
over the trainable parameters.  `solver = none` models the absence of
the `_solver` attribute. -/
structure BilinearAlexManager where
  net : BilinearAlex
  margin : ℚ
  batch : Nat
  epoch : Nat
  solver : Option (List (String × Bool))
deriving DecidableEq, Repr

/-- `BilinearAlexManager.__init__(freeze)`: builds the network with the
requested freeze mode, sets margin 1.0, batch 1, epoch 1, and constructs
the solver over exactly the `requires_grad` parameters if and only if
`freeze != 'all'`. -/
def BilinearAlexManager.init (freeze : Option String) :
    Except String BilinearAlexManager :=
  match BilinearAlex.init freeze with
  | .error e => .error e
  | .ok net =>
      .ok { net := net, margin := 1, batch := 1, epoch := 1,
            solver := if freeze ≠ some "all" then some (trainableParams net) else none }

/-- One training iteration starts with `self._solver.zero_grad()`: when
the manager was built with `freeze='all'` no `_solver` attribute exists
and the access raises `AttributeError`. -/
def BilinearAlexManager.trainBatch (m : BilinearAlexManager) : Except String Unit :=
  match m.solver with
  | none => .error "AttributeError: _solver"
  | some _ => .ok ()

/-- The per-epoch batch loop of `train()`, restricted to the solver
accesses that can fail; one step per batch, stopping at the first
error. -/
def BilinearAlexManager.trainEpoch (m : BilinearAlexManager)
    (batches : List Nat) : Except String Unit :=
  match batches with
  | [] => .ok ()
  | _ :: rest =>
    match m.trainBatch with
    | .error e => .error e
    | .ok _ => m.trainEpoch rest

/-! ## The dataset indexer `sun360h_data_load`

The function validates `part` and `ver`, reads the ground-truth table
`gt` (rows `(sample_id, positive_index)`), draws a random permutation
`idx` of the row indices, walks it in consecutive slices
`idx[i : min(i + batch, gt_len)]`, and for each row opens the per-sample
JSON `(anchor_name, candidate_names)` and emits the anchor path, the
positive path `names[1][positive_index]`, and a negative path chosen by
indexing `[k for k in range(10) if k != positive_index]` at a fresh
`np.random.randint(9)` draw.  The permutation and the per-row draws are
explicit arguments; `idx.Perm (List.range gt.length)` and `Fin 9` are
exactly the guarantees of the two numpy calls. -/

/-- Consecutive slices `l[i : i + batch]` of the loop
`for i in range(0, gt_len, batch)`. -/
def batchSlices (batch : Nat) (l : List α) : List (List α) :=
  if h : 0 < batch ∧ l.isEmpty = false then
    l.take batch :: batchSlices batch (l.drop batch)
  else []
termination_by l.length
decreasing_by
  simp only [List.length_drop]
  have hne : l ≠ [] := by
    intro hl
    rw [hl] at h
    simp at h
  have := List.length_pos.mpr hne
  omega

/-- Content of one per-sample JSON file:
`[anchor_image_name, [candidate_image_names]]`. -/
structure TaskFile where
  anchor : String
  cands : List String
deriving DecidableEq, Repr

def root_path : String := "/mnt/nfs/scratch1/gluo/SUN360/HalfHalf/"

def imgs_path : String := "/IMGs/"

/-- The negative candidate index:
`[k for k in range(10) if k != pos][r]` with `r = np.random.randint(9)`. -/
def negPick (pos : Nat) (r : Fin 9) : Nat :=
  ((List.range 10).filter fun k => k ≠ pos).getD r.val 0

/-- The (anchor, positive, negative) paths produced for ground-truth row
`j`: row `gt[j] = (sample_id, positive_index)`, task file `tasks
sample_id`, negative drawn with `draws j`. -/
def tripletOfRow (gt : List (String × Nat)) (tasks : String → TaskFile)
    (draws : Nat → Fin 9) (j : Nat) : String × String × String :=
  let row := gt.getD j ("", 0)
  let tf := tasks row.1
  (root_path ++ imgs_path ++ tf.anchor,
   root_path ++ imgs_path ++ tf.cands.getD row.2 "",
   root_path ++ imgs_path ++ tf.cands.getD (negPick row.2 (draws j)) "")

/-- `sun360h_data_load(part, ver, batch)`: validates `part` and `ver`
(raising `ValueError` before the ground-truth table is read and before
any batch is produced), then emits one `(anchors, positives, negatives)`
triple of path lists per slice of the permuted row indices. -/
def sun360h_data_load (gt : List (String × Nat)) (tasks : String → TaskFile)
    (idx : List Nat) (draws : Nat → Fin 9)
    (part : String) (ver : Nat) (batch : Nat) :
    Except String (List (List String × List String × List String)) :=
  if ¬ (part = "train" ∨ part = "test") then
    .error "Unavailable dataset part!"
  else if ¬ (ver = 0 ∨ ver = 1 ∨ ver = 2) then
    .error "Unavailable dataset version!"
  else
    .ok ((batchSlices batch idx).map fun chunk =>
      (chunk.map fun j => (tripletOfRow gt tasks draws j).1,
       chunk.map fun j => (tripletOfRow gt tasks draws j).2.1,
       chunk.map fun j => (tripletOfRow gt tasks draws j).2.2))

/-! ## Bilinear pooling on values

For one image the `bfc` output `v` is viewed as a 1 × 512 matrix `X`
(`X.view(N, -1, 512)` with one row per image), and the pooling step is
`torch.matmul(torch.transpose(X, 1, 2), X)`, then `X.view(N, 512 ** 2)`. -/

/-- Entrywise value of `torch.matmul(transpose(X), X)` for a p × m
matrix `X`: entry (i, j) is the inner product of columns i and j. -/
def matTransposeMul {p m : Nat} (X : Fin p → Fin m → ℚ) :
    Fin m → Fin m → ℚ :=
  fun i j => ∑ k, X k i * X k j

/-- The bilinear pooling step on the 512-vector of one image: the image
contributes the single row `v` of `X`. -/
def bilinearPool (v : Fin 512 → ℚ) : Fin 512 → Fin 512 → ℚ :=
  matTransposeMul fun _ : Fin 1 => v

/-- The outer product vᵗ × v described by the specification. -/
def outerProduct (v : Fin 512 → ℚ) : Fin 512 → Fin 512 → ℚ :=
  fun i j => v i * v j

/-- Row-major position of entry (i, j) in the flattened
`X.view(N, 512 ** 2)` output. -/
def flatIdx (i j : Fin 512) : Fin (512 * 512) :=
  ⟨i.val * 512 + j.val, by
    have hi := i.isLt
    have hj := j.isLt
    calc i.val * 512 + j.val < (i.val + 1) * 512 := by omega
    _ ≤ 512 * 512 := Nat.mul_le_mul_right 512 hi⟩

/-- The flattened 512²-length vector `X.view(N, 512 ** 2)` of a pooled
matrix. -/
def flatten512 (M : Fin 512 → Fin 512 → ℚ) : Fin (512 * 512) → ℚ :=
  fun k => M ⟨k.val / 512, by omega⟩ ⟨k.val % 512, by omega⟩

/-! ## Evaluation: triplet correctness and accuracy

`test()` accumulates
`num_correct += (dap - dan + margin <= 0).sum()` and
`num_total += len(a)` over all test batches and reports
`num_correct / num_total`, where `dap` and `dan` are the squared
euclidean distances `((feat_a - feat_p) ** 2).sum(axis=1)` and
`((feat_a - feat_n) ** 2).sum(axis=1)`. -/

/-- Squared euclidean distance `((x - y) ** 2).sum(axis=1)` of one row. -/
def sqDist {d : Nat} (x y : Fin d → ℚ) : ℚ :=
  ∑ i, (x i - y i) ^ 2

/-- One triplet is counted as correct when
`‖a − p‖² − ‖a − n‖² + margin ≤ 0`. -/
def tripletCorrect {d : Nat} (margin : ℚ) (a p n : Fin d → ℚ) : Bool :=
  decide (sqDist a p - sqDist a n + margin ≤ 0)

/-- One evaluation batch: rows of (anchor, positive, negative)
embeddings. -/
abbrev TripletBatch (d : Nat) : Type :=
  List ((Fin d → ℚ) × (Fin d → ℚ) × (Fin d → ℚ))

/-- The `(num_correct, num_total)` accumulation of `test()`. -/
def testCounts {d : Nat} (margin : ℚ) (batches : List (TripletBatch d)) :
    Nat × Nat :=
  batches.foldl
    (fun acc batch =>
      (acc.1 + batch.countP (fun t => tripletCorrect margin t.1 t.2.1 t.2.2),
       acc.2 + batch.length))
    (0, 0)

/-- The reported `Test accuracy`: `num_correct / num_total`. -/
def testAccuracy {d : Nat} (margin : ℚ) (batches : List (TripletBatch d)) : ℚ :=
  ((testCounts margin batches).1 : ℚ) / ((testCounts margin batches).2 : ℚ)

/-- Anchor embedding of the concrete evaluation scenario: the zero
vector in dimension 10. -/
def aVec : Fin 10 → ℚ := fun _ => 0

/-- Embedding at squared distance 1/10 from `aVec` (ten coordinates of
1/10 each). -/
def pVec : Fin 10 → ℚ := fun _ => 1 / 10

/-- Embedding at squared distance 2 from `aVec` (two coordinates of 1). -/
def nVec : Fin 10 → ℚ := fun i => if i.val < 2 then 1 else 0

/-! ## Training diagnostics cadence

In `train()` the counter `iter_num` is incremented once per batch inside
the batch loop, but the statement
`if iter_num % 50 == 0: print('Triplet loss ', epoch_loss[-1])` sits
after the loop, at epoch level: the epoch's last loss is printed once,
and only when the epoch's total batch count is divisible by 50. -/

/-- Reports emitted during one epoch by the code as written: `losses`
are the per-batch losses in order, so `losses.length` is the final value
of `iter_num`. -/
def epochReportsCode (losses : List ℚ) : List (Option ℚ) :=
  if losses.length % 50 = 0 then [losses.getLast?] else []

/-- Reports the specification describes: one report at every batch whose
1-based index within the epoch is a multiple of 50, carrying the most
recent loss. -/
def epochReportsSpec (losses : List ℚ) : List (Option ℚ) :=
  ((List.range losses.length).filter fun i => (i + 1) % 50 = 0).map
    fun i => some (losses.getD i 0)

/-! ## Helper lemmas about batch slicing -/

theorem batchSlices_nil (b : Nat) : batchSlices b ([] : List α) = [] := by
  rw [batchSlices]
  simp

theorem batchSlices_cons (b : Nat) (hb : 0 < b) (l : List α) (hl : l ≠ []) :
    batchSlices b l = l.take b :: batchSlices b (l.drop b) := by
  rw [batchSlices]
  rw [dif_pos ⟨hb, by simp [hl]⟩]

theorem batchSlices_flatten (b : Nat) (hb : 0 < b) :
    ∀ (len : Nat) (l : List α), l.length ≤ len → (batchSlices b l).flatten = l := by
  intro len
  induction len with
  | zero =>
    intro l hl
    have : l = [] := List.eq_nil_of_length_eq_zero (by omega)
    subst this
    simp [batchSlices_nil]
  | succ m ih =>
    intro l hl
    by_cases hne : l = []
    · subst hne
      simp [batchSlices_nil]
    · rw [batchSlices_cons b hb l hne]
      have hlen : (l.drop b).length ≤ m := by
        have h1 := List.length_pos.mpr hne
        simp only [List.length_drop]
        omega
      simp only [List.flatten_cons]
      rw [ih (l.drop b) hlen, List.take_append_drop]

/-- The ceiling-division recurrence behind the batch count. -/
theorem ceilDiv_step (n b : Nat) (hb : 0 < b) (hn : 0 < n) :
    (n + b - 1) / b = (n - b + b - 1) / b + 1 := by
  rcases Nat.lt_or_ge b n with h | h
  · have e1 : n + b - 1 = (n - b + b - 1) + b := by omega
    rw [e1, Nat.add_div_right _ hb]
  · have e0 : n - b = 0 := by omega
    have e1 : n + b - 1 = (n - 1) + b := by omega
    rw [e0, e1, Nat.add_div_right _ hb,
        Nat.div_eq_of_lt (show n - 1 < b by omega),
        Nat.div_eq_of_lt (show 0 + b - 1 < b by omega)]

theorem batchSlices_length (b : Nat) (hb : 0 < b) :
    ∀ (len : Nat) (l : List α), l.length ≤ len →
      (batchSlices b l).length = (l.length + b - 1) / b := by
  intro len
  induction len with
  | zero =>
    intro l hl
    have : l = [] := List.eq_nil_of_length_eq_zero (by omega)
    subst this
    simp [batchSlices_nil, Nat.div_eq_of_lt (show b - 1 < b by omega)]
  | succ m ih =>
    intro l hl
    by_cases hne : l = []
    · subst hne
      simp [batchSlices_nil, Nat.div_eq_of_lt (show b - 1 < b by omega)]
    · have hpos := List.length_pos.mpr hne
      have hlen : (l.drop b).length ≤ m := by
        simp only [List.length_drop]
        omega
      rw [batchSlices_cons b hb l hne]
      simp only [List.length_cons]
      rw [ih (l.drop b) hlen, List.length_drop]
      exact (ceilDiv_step l.length b hb hpos).symm

theorem batchSlices_dropLast (b : Nat) (hb : 0 < b) :
    ∀ (len : Nat) (l : List α), l.length ≤ len →
      ∀ c ∈ (batchSlices b l).dropLast, c.length = b := by
  intro len
  induction len with
  | zero =>
    intro l hl c hc
    have : l = [] := List.eq_nil_of_length_eq_zero (by omega)
    subst this
    simp [batchSlices_nil] at hc
  | succ m ih =>
    intro l hl c hc
    by_cases hne : l = []
    · subst hne
      simp [batchSlices_nil] at hc
    · rw [batchSlices_cons b hb l hne] at hc
      by_cases hrest : l.drop b = []
      · rw [hrest, batchSlices_nil] at hc
        simp at hc
      · have hlen : (l.drop b).length ≤ m := by
          have := List.length_pos.mpr hne
          simp only [List.length_drop]
          omega
        have hgt : b < l.length := by
          have := List.length_pos.mpr hrest
          simp only [List.length_drop] at this
          omega
        rcases List.exists_cons_of_ne_nil
            (show batchSlices b (l.drop b) ≠ [] by
              rw [batchSlices_cons b hb _ hrest]
              simp) with ⟨r, rs, hr⟩
        rw [hr, List.dropLast_cons₂] at hc
        rcases List.mem_cons.mp hc with hc1 | hc2
        · subst hc1
          simp only [List.length_take]
          omega
        · exact ih (l.drop b) hlen c (hr ▸ hc2)

/-! ## Concrete constructed values used as witnesses -/

/-- The network produced by construction with freeze mode `part`. -/
def netPart : BilinearAlex :=
  { features := frz initNet.features,
    bfc := initNet.bfc.dropLast.map frz ++ initNet.bfc.drop (initNet.bfc.length - 1),
    fc := initNet.fc }

/-- The manager produced by construction with freeze mode `part`. -/
def mgrPart : BilinearAlexManager :=
  { net := netPart, margin := 1, batch := 1, epoch := 1,
    solver := some (trainableParams netPart) }

/-- The manager produced by construction with freeze mode `all`: fully
frozen network and no solver. -/
def mgrAll : BilinearAlexManager :=
  { net := { features := frz initNet.features, bfc := initNet.bfc.map frz,
             fc := frz initNet.fc },
    margin := 1, batch := 1, epoch := 1, solver := none }

/-- A one-row ground-truth table whose positive candidate index is 3. -/
def gt0 : List (String × Nat) := [("s", 3)]

/-- A task-file assignment with ten pairwise distinct candidate names. -/
def tasks0 : String → TaskFile :=
  fun _ => ⟨"anchor", ["c0", "c1", "c2", "c3", "c4", "c5", "c6", "c7", "c8", "c9"]⟩

/-- The batches the indexer emits for `gt0`, `tasks0`, permutation `[0]`,
draw 0, partition `train`, version 0, batch size 1. -/
def bs0 : List (List String × List String × List String) :=
  [([root_path ++ imgs_path ++ "anchor"],
    [root_path ++ imgs_path ++ "c3"],
    [root_path ++ imgs_path ++ "c0"])]

/-! ## Further helper lemmas -/

/-- Appending to a fixed string on the left is injective. -/
theorem string_append_cancel (s t u : String) (h : s ++ t = s ++ u) : t = u := by
  have hd := congrArg String.data h
  simp [String.data_append] at hd
  exact String.ext hd

/-- The negative candidate index always differs from the positive index
and stays below 10, for every valid positive index and every draw. -/
theorem negPick_spec :
    ∀ p : Fin 10, ∀ r : Fin 9, negPick p.val r ≠ p.val ∧ negPick p.val r < 10 := by
  decide

/-- Row-level invariant: the negative path of a row differs from its
positive path, given a valid positive index and ten distinct candidate
names. -/
theorem tripletOfRow_neg_ne (gt : List (String × Nat))
    (tasks : String → TaskFile) (draws : Nat → Fin 9) (j : Nat)
    (hj : j < gt.length) (hgt : ∀ row ∈ gt, row.2 < 10)
    (htasks : ∀ s, (tasks s).cands.length = 10 ∧ (tasks s).cands.Nodup) :
    (tripletOfRow gt tasks draws j).2.2 ≠ (tripletOfRow gt tasks draws j).2.1 := by
  unfold tripletOfRow
  intro heq
  have hrowmem : gt.getD j ("", 0) ∈ gt := by
    rw [List.getD_eq_getElem gt ("", 0) hj]
    exact List.getElem_mem hj
  have hpos : (gt.getD j ("", 0)).2 < 10 := hgt _ hrowmem
  have hspec := negPick_spec ⟨(gt.getD j ("", 0)).2, hpos⟩ (draws j)
  have hlen := (htasks (gt.getD j ("", 0)).1).1
  have hnd := (htasks (gt.getD j ("", 0)).1).2
  have hnames := string_append_cancel (root_path ++ imgs_path) _ _ heq
  have hlt1 : negPick (gt.getD j ("", 0)).2 (draws j) <
      (tasks (gt.getD j ("", 0)).1).cands.length := by
    rw [hlen]
    exact hspec.2
  have hlt2 : (gt.getD j ("", 0)).2 < (tasks (gt.getD j ("", 0)).1).cands.length := by
    rw [hlen]
    exact hpos
  rw [List.getD_eq_getElem _ "" hlt1, List.getD_eq_getElem _ "" hlt2] at hnames
  exact hspec.1 ((List.Nodup.getElem_inj_iff hnd).mp hnames)

/-- Unfolding the `(num_correct, num_total)` accumulator of `test()`. -/
theorem testCounts_eq {d : Nat} (margin : ℚ) :
    ∀ (bs : List (TripletBatch d)) (a b : Nat),
      bs.foldl
        (fun acc batch =>
          (acc.1 + batch.countP (fun t => tripletCorrect margin t.1 t.2.1 t.2.2),
           acc.2 + batch.length)) (a, b)
        = (a + bs.flatten.countP (fun t => tripletCorrect margin t.1 t.2.1 t.2.2),
           b + bs.flatten.length) := by
  intro bs
  induction bs with
  | nil => intro a b; simp
  | cons x xs ih =>
    intro a b
    simp only [List.foldl_cons, List.flatten_cons, List.countP_append,
      List.length_append, ih]
    simp [Nat.add_assoc]

/-- Evaluating the forward-pass shape at a valid input batch. -/
theorem forwardShape_eval (n : Nat) (hn : 1 ≤ n) :
    forwardShape n 3 227 227 = some (n, 512) := by
  have hfeat : alexFeaturesShape 3 227 227 = some (256, 6, 6) := by decide
  have hnz : n * 512 ≠ 0 := by omega
  have hview : viewInfer3 (n * 512) n 512 = some (n, 1, 512) := by
    unfold viewInfer3
    rw [if_pos ⟨hnz, dvd_refl _⟩, Nat.div_self (Nat.pos_of_ne_zero hnz)]
  have hmat : matmulShape (transposeShape12 (n, 1, 512)) (n, 1, 512)
      = some (n, 512, 512) := by
    simp [matmulShape, transposeShape12]
  have harith : n * 512 * 512 = n * 512 ^ 2 := by ring
  unfold forwardShape
  rw [hfeat]
  norm_num [bfcShape, linearShape, hview, hmat, harith]

/-! ## Claim theorems -/

/-- C1: for every valid freeze mode and every input batch of shape
(N, 3, 227, 227) with N ≥ 1, construction succeeds and the forward pass
returns shape (N, 512) with none of the intermediate shape assertions
firing (the `some` result means every assertion and tensor operation
succeeded). -/
theorem forward_shape_safe (f : Option String) (hf : validFreeze f)
    (n : Nat) (hn : 1 ≤ n) :
    (∃ net, BilinearAlex.init f = .ok net) ∧
      forwardShape n 3 227 227 = some (n, 512) := by
  constructor
  · rcases hf with h | h | h <;> subst h
    · exact ⟨initNet, rfl⟩
    · exact ⟨_, rfl⟩
    · exact ⟨_, rfl⟩
  · exact forwardShape_eval n hn

/-- Witness for C1 at freeze mode `part` and batch size 2. -/
theorem forward_shape_safe_witness :
    (∃ net, BilinearAlex.init (some "part") = .ok net) ∧
      forwardShape 2 3 227 227 = some (2, 512) :=
  forward_shape_safe (some "part") (Or.inr (Or.inl rfl)) 2 (by decide)

/-- C2: construction with freeze mode `none` succeeds and every
parameter of the feature extractor, the bilinear sub-head and the final
projection has gradients enabled. -/
theorem freeze_none_all_trainable :
    ∃ net, BilinearAlex.init none = .ok net ∧
      (∀ p ∈ net.features, p.2 = true) ∧
      (∀ p ∈ net.bfc.flatten, p.2 = true) ∧
      (∀ p ∈ net.fc, p.2 = true) ∧
      trainableParams net = net.parameters := by
  exact ⟨initNet, rfl, by decide, by decide, by decide, by decide⟩

/-- C4: with freeze mode `all` no parameter has gradients enabled; with
`part` the trainable parameters are exactly the last bilinear sub-head
layer followed by the final projection layer; and the manager builds the
solver, over exactly the trainable parameters, if and only if the
freeze mode is not `all`. -/
theorem freeze_sets_and_optimizer :
    (∃ net, BilinearAlex.init (some "all") = .ok net ∧ trainableParams net = []) ∧
    (∃ net, BilinearAlex.init (some "part") = .ok net ∧
      trainableParams net = net.bfc.getLast?.getD [] ++ net.fc ∧
      (trainableParams net).map Prod.fst =
        ["bfc.6.weight", "bfc.6.bias", "fc.weight", "fc.bias"] ∧
      (∀ p ∈ net.features, p.2 = false) ∧
      (∀ layer ∈ net.bfc.dropLast, ∀ p ∈ layer, p.2 = false)) ∧
    (∀ (f : Option String) (m : BilinearAlexManager),
      BilinearAlexManager.init f = .ok m →
        (f = some "all" → m.solver = none) ∧
        (f ≠ some "all" → m.solver = some (trainableParams m.net))) := by
  refine ⟨⟨_, rfl, by decide⟩, ⟨_, rfl, by decide, by decide, by decide, by decide⟩, ?_⟩
  intro f m hm
  unfold BilinearAlexManager.init at hm
  cases hi : BilinearAlex.init f with
  | error e => rw [hi] at hm; exact absurd hm (by simp)
  | ok net =>
    rw [hi] at hm
    injection hm with hm
    subst hm
    constructor
    · intro hf
      subst hf
      simp
    · intro hf
      simp [hf]

/-- Witness for C4: the manager built with freeze mode `part` holds a
solver over exactly the trainable parameters. -/
theorem freeze_sets_and_optimizer_witness :
    mgrPart.solver = some (trainableParams mgrPart.net) :=
  (freeze_sets_and_optimizer.2.2 (some "part") mgrPart (by rfl)).2 (by decide)

/-- C3: the bilinear pooling step computes exactly the outer product
vᵗ × v of the 512-length sub-head output with itself, and the flattened
`view(N, 512 ** 2)` vector carries v i * v j at row-major position
(i, j), with 512 * 512 = 262144 entries in total. -/
theorem bilinear_pool_outer (v : Fin 512 → ℚ) :
    bilinearPool v = outerProduct v ∧
    (∀ i j : Fin 512, flatten512 (bilinearPool v) (flatIdx i j) = v i * v j) ∧
    512 * 512 = 262144 := by
  have hpool : bilinearPool v = outerProduct v := by
    funext i j
    unfold bilinearPool matTransposeMul outerProduct
    exact Fin.sum_univ_one _
  refine ⟨hpool, ?_, by norm_num⟩
  intro i j
  have hj := j.isLt
  have h1 : (i.val * 512 + j.val) / 512 = i.val := by omega
  have h2 : (i.val * 512 + j.val) % 512 = j.val := by omega
  unfold flatten512 flatIdx
  rw [hpool]
  unfold outerProduct
  simp only [h1, h2, Fin.eta]

/-- C5: with batch size ≥ 1 and a permutation of the row indices, the
indexer emits exactly ⌈n / batch⌉ batches, every batch except possibly
the last holds exactly `batch` triplets, and the row indices pooled
across all batches are exactly the table rows, each exactly once. -/
theorem dataset_batching (gt : List (String × Nat)) (tasks : String → TaskFile)
    (idx : List Nat) (draws : Nat → Fin 9) (batch : Nat) (hb : 1 ≤ batch)
    (hperm : idx.Perm (List.range gt.length)) :
    ∃ bs, sun360h_data_load gt tasks idx draws "train" 0 batch = .ok bs ∧
      bs.length = (gt.length + batch - 1) / batch ∧
      (∀ t ∈ bs.dropLast, t.1.length = batch ∧ t.2.1.length = batch ∧
        t.2.2.length = batch) ∧
      (batchSlices batch idx).flatten = idx ∧
      (batchSlices batch idx).flatten.Perm (List.range gt.length) := by
  have hlen : idx.length = gt.length := by simpa using hperm.length_eq
  have hflat : (batchSlices batch idx).flatten = idx :=
    batchSlices_flatten batch hb idx.length idx le_rfl
  refine ⟨_, rfl, ?_, ?_, hflat, by rw [hflat]; exact hperm⟩
  · rw [List.length_map, batchSlices_length batch hb idx.length idx le_rfl, hlen]
  · intro t ht
    rw [← List.map_dropLast] at ht
    rcases List.mem_map.mp ht with ⟨c, hc, rfl⟩
    have hcb : c.length = batch :=
      batchSlices_dropLast batch hb idx.length idx le_rfl c hc
    exact ⟨by simp [hcb], by simp [hcb], by simp [hcb]⟩

/-- Witness for C5: a three-row table with batch size 2. -/
theorem dataset_batching_witness :
    ∃ bs, sun360h_data_load [("a", 0), ("b", 0), ("c", 0)] tasks0 [2, 0, 1]
        (fun _ => 0) "train" 0 2 = .ok bs ∧
      bs.length = (([("a", 0), ("b", 0), ("c", 0)] :
          List (String × Nat)).length + 2 - 1) / 2 ∧
      (∀ t ∈ bs.dropLast, t.1.length = 2 ∧ t.2.1.length = 2 ∧
        t.2.2.length = 2) ∧
      (batchSlices 2 [2, 0, 1]).flatten = [2, 0, 1] ∧
      (batchSlices 2 [2, 0, 1]).flatten.Perm
        (List.range ([("a", 0), ("b", 0), ("c", 0)] :
          List (String × Nat)).length) :=
  dataset_batching [("a", 0), ("b", 0), ("c", 0)] tasks0 [2, 0, 1]
    (fun _ => 0) 2 (by decide) (by decide)

/-- C6: the negative candidate index always differs from the positive
index, the draw ranges bijectively over the 9 non-positive candidates,
and in every emitted batch the negative path differs from the positive
path at every row position (given well-formed ground truth: positive
indices below 10 and ten distinct candidate names per task). -/
theorem negative_differs (gt : List (String × Nat)) (tasks : String → TaskFile)
    (idx : List Nat) (draws : Nat → Fin 9) (part : String) (ver batch : Nat)
    (hgt : ∀ row ∈ gt, row.2 < 10)
    (htasks : ∀ s, (tasks s).cands.length = 10 ∧ (tasks s).cands.Nodup)
    (hperm : idx.Perm (List.range gt.length)) (hb : 1 ≤ batch)
    (bs : List (List String × List String × List String))
    (hload : sun360h_data_load gt tasks idx draws part ver batch = .ok bs) :
    (∀ p : Fin 10, ∀ r : Fin 9, negPick p.val r ≠ p.val) ∧
    (∀ p : Fin 10, ∀ r r2 : Fin 9,
      negPick p.val r = negPick p.val r2 → r = r2) ∧
    (∀ p k : Fin 10, k ≠ p → ∃ r : Fin 9, negPick p.val r = k.val) ∧
    (∀ t ∈ bs, ∀ i (h1 : i < t.2.1.length) (h2 : i < t.2.2.length),
      t.2.2.get ⟨i, h2⟩ ≠ t.2.1.get ⟨i, h1⟩) := by
  refine ⟨fun p r => (negPick_spec p r).1, by decide, by decide, ?_⟩
  unfold sun360h_data_load at hload
  split at hload
  · exact absurd hload (by simp)
  · split at hload
    · exact absurd hload (by simp)
    · injection hload with hbs
      subst hbs
      intro t ht i h1 h2
      rcases List.mem_map.mp ht with ⟨c, hc, rfl⟩
      have h1l : i < c.length := by simpa using h1
      have hjlt : c.get ⟨i, h1l⟩ < gt.length := by
        have hmem : c.get ⟨i, h1l⟩ ∈ (batchSlices batch idx).flatten :=
          List.mem_flatten.mpr ⟨c, hc, c.get_mem i h1l⟩
        rw [batchSlices_flatten batch hb idx.length idx le_rfl] at hmem
        exact List.mem_range.mp (hperm.mem_iff.mp hmem)
      have key := tripletOfRow_neg_ne gt tasks draws (c.get ⟨i, h1l⟩) hjlt hgt htasks
      simp only [List.get_eq_getElem, List.getElem_map]
      exact key

/-- Witness for C6: one row with positive index 3, ten distinct
candidates, permutation `[0]`, draw 0. -/
theorem negative_differs_witness :
    (∀ p : Fin 10, ∀ r : Fin 9, negPick p.val r ≠ p.val) ∧
    (∀ p : Fin 10, ∀ r r2 : Fin 9,
      negPick p.val r = negPick p.val r2 → r = r2) ∧
    (∀ p k : Fin 10, k ≠ p → ∃ r : Fin 9, negPick p.val r = k.val) ∧
    (∀ t ∈ bs0, ∀ i (h1 : i < t.2.1.length) (h2 : i < t.2.2.length),
      t.2.2.get ⟨i, h2⟩ ≠ t.2.1.get ⟨i, h1⟩) :=
  negative_differs gt0 tasks0 [0] (fun _ => 0) "train" 0 1
    (by decide)
    (by
      intro s
      refine ⟨rfl, ?_⟩
      show (["c0", "c1", "c2", "c3", "c4", "c5", "c6", "c7", "c8",
        "c9"] : List String).Nodup
      decide)
    (by decide) (by decide) bs0
    (by
      unfold sun360h_data_load
      rw [if_neg (not_not_intro (Or.inl rfl)),
          if_neg (not_not_intro (Or.inl rfl)),
          batchSlices_cons 1 (by decide) [0] (by decide),
          show ([0] : List Nat).drop 1 = [] from rfl, batchSlices_nil]
      rfl)

/-- C7: the manager's margin is 1.0; a triplet is counted as correct
exactly when ‖a − p‖² − ‖a − n‖² + margin ≤ 0; the reported accuracy is
the number of correct triplets divided by the total number of samples
seen; squared distances (1/10, 2) count as correct and (2, 1/10) as
incorrect. -/
theorem test_accuracy_spec :
    (∀ (f : Option String) (m : BilinearAlexManager),
      BilinearAlexManager.init f = .ok m → m.margin = 1) ∧
    (∀ (dim : Nat) (a p n : Fin dim → ℚ),
      tripletCorrect 1 a p n = true ↔ sqDist a p - sqDist a n + 1 ≤ 0) ∧
    (∀ (dim : Nat) (margin : ℚ) (bs : List (TripletBatch dim)),
      testAccuracy margin bs =
        ((bs.flatten.countP fun t => tripletCorrect margin t.1 t.2.1 t.2.2 : Nat) : ℚ)
          / ((bs.flatten.length : Nat) : ℚ)) ∧
    sqDist aVec pVec = 1 / 10 ∧ sqDist aVec nVec = 2 ∧
    tripletCorrect 1 aVec pVec nVec = true ∧
    tripletCorrect 1 aVec nVec pVec = false := by
  have hap : sqDist aVec pVec = 1 / 10 := by
    simp [sqDist, aVec, pVec, Fin.sum_univ_succ]
    norm_num
  have han : sqDist aVec nVec = 2 := by
    simp [sqDist, aVec, nVec, Fin.sum_univ_succ]
    norm_cast
  refine ⟨?_, ?_, ?_, hap, han, ?_, ?_⟩
  · intro f m hm
    unfold BilinearAlexManager.init at hm
    cases hi : BilinearAlex.init f with
    | error e => rw [hi] at hm; exact absurd hm (by simp)
    | ok net =>
      rw [hi] at hm
      injection hm with hm
      subst hm
      rfl
  · intro dim a p n
    simp [tripletCorrect]
  · intro dim margin bs
    unfold testAccuracy testCounts
    rw [testCounts_eq]
    simp
  · simp [tripletCorrect, hap, han]
    norm_num
  · simp [tripletCorrect, hap, han]
    norm_num

/-- Witness for C7: the manager built with freeze mode `all` carries
margin 1. -/
theorem test_accuracy_spec_witness : mgrAll.margin = 1 :=
  test_accuracy_spec.1 (some "all") mgrAll rfl

/-- C8: an unrecognized freeze mode fails construction with the freeze
`ValueError`; an unrecognized partition or version fails the dataset
load with the corresponding `ValueError`, in each case before any batch
is produced (the result is the error, never a batch list). -/
theorem invalid_config_errors :
    BilinearAlex.init (some "bogus") = .error "Unavailable freeze option." ∧
    (∀ (gt : List (String × Nat)) (tasks : String → TaskFile) (idx : List Nat)
        (draws : Nat → Fin 9) (part : String) (ver batch : Nat),
      part ≠ "train" → part ≠ "test" →
        sun360h_data_load gt tasks idx draws part ver batch =
          .error "Unavailable dataset part!") ∧
    (∀ (gt : List (String × Nat)) (tasks : String → TaskFile) (idx : List Nat)
        (draws : Nat → Fin 9) (part : String) (ver batch : Nat),
      (part = "train" ∨ part = "test") → ver ≠ 0 → ver ≠ 1 → ver ≠ 2 →
        sun360h_data_load gt tasks idx draws part ver batch =
          .error "Unavailable dataset version!") := by
  refine ⟨rfl, ?_, ?_⟩
  · intro gt tasks idx draws part ver batch h1 h2
    unfold sun360h_data_load
    rw [if_pos]
    rintro (h | h)
    · exact h1 h
    · exact h2 h
  · intro gt tasks idx draws part ver batch hp hv0 hv1 hv2
    unfold sun360h_data_load
    rw [if_neg (not_not_intro hp), if_pos]
    rintro (h | h | h) <;> contradiction

/-- Witness for C8: freeze mode `bogus`, partition `val`, version 5. -/
theorem invalid_config_errors_witness :
    BilinearAlex.init (some "bogus") = .error "Unavailable freeze option." ∧
    sun360h_data_load [] tasks0 [] (fun _ => 0) "val" 0 1 =
      .error "Unavailable dataset part!" ∧
    sun360h_data_load [] tasks0 [] (fun _ => 0) "train" 5 1 =
      .error "Unavailable dataset version!" :=
  ⟨invalid_config_errors.1,
   invalid_config_errors.2.1 [] tasks0 [] (fun _ => 0) "val" 0 1
     (by decide) (by decide),
   invalid_config_errors.2.2 [] tasks0 [] (fun _ => 0) "train" 5 1
     (Or.inl rfl) (by decide) (by decide) (by decide)⟩

/-- C9: the code prints a loss report only after the epoch's batch loop,
and only when the total number of processed batches is divisible by 50;
it does not report at every 50th processed batch.  For an epoch of 60
batches the code emits no report, while the claimed cadence emits one
(after batch 50). -/
theorem loss_report_cadence_bug :
    epochReportsCode (List.replicate 60 1) = [] ∧
    epochReportsSpec (List.replicate 60 1) = [some 1] ∧
    epochReportsCode (List.replicate 50 1) = [some 1] := by
  refine ⟨?_, ?_, ?_⟩
  · decide
  · decide
  · decide

/-- C10: a manager constructed with freeze mode `all` has no solver, so
`train()` on any nonempty batch list fails at the first batch's
`self._solver.zero_grad()`. -/
theorem train_frozen_all_fails (m : BilinearAlexManager)
    (hm : BilinearAlexManager.init (some "all") = .ok m)
    (bs : List Nat) (hbs : bs ≠ []) :
    m.trainEpoch bs = .error "AttributeError: _solver" := by
  have hmgr : BilinearAlexManager.init (some "all") = .ok mgrAll := rfl
  rw [hmgr] at hm
  injection hm with hm
  subst hm
  rcases bs with _ | ⟨x, rest⟩
  · exact absurd rfl hbs
  · rfl

/-- Witness for C10: training the fully frozen manager on one batch. -/
theorem train_frozen_all_fails_witness :
    mgrAll.trainEpoch [0] = .error "AttributeError: _solver" :=
  train_frozen_all_fails mgrAll rfl [0] (by decide)
